import Mathlib

/-!
Shallow embedding of the two firmware primitives of the repository:

* `src/app/queue.c`   — a fixed-capacity circular queue over a caller-provided
  byte buffer (`Queue_Init`, `Queue_WriteData`, `Queue_ReadData`,
  `Queue_isQueueEmpty`, `Queue_FlushQueue`);
* `src/app/buttons.c` — a polled button debouncer (`Buttons_Init`,
  `Buttons_Register`, `Buttons_GetStatus`, `Buttons_GetEvent`,
  `Buttons_MainFunction` and the static helper `Sample_Button`).

Modelling conventions:

* The caller-owned byte buffer of the queue is a total function `Nat → Nat`
  (the C code never learns the allocation size; bounds are expressed as
  separate propositions).  `memcpy` into/out of the buffer becomes
  `memcpyToBuffer` / `memcpyFromBuffer`.
* `uint32_t`/`uint8_t` fields are `Nat`.  No modelled behaviour can overflow
  the machine width: `Head`/`Tail` are reduced modulo `Elements` right after
  each increment, the keyboard counter is guarded by `Counter < Buttons`
  (both `uint8_t`), and a button's debounce counter never exceeds the
  `uint8_t` threshold `Samples` before the state machine leaves the counting
  state, so the natural-number model agrees with the C integer semantics on
  every representable state.
* Fallible reads return `Option`; the C out-parameter of `Queue_ReadData`
  becomes a returned `Option (List Nat)`.
* The 1-based button index arithmetic `BtnBuffer[Button - 1]` is computed in
  `Int` exactly as C integer promotion does; an access outside the list is an
  out-of-bounds array access in C (undefined behaviour) and is marked by
  `none` from `btnGet`.
* The external pin-read capability `HAL_GPIO_ReadPin(Ports[Port], 1 << Pin)`
  is an environment parameter: a function from the button's port and pin
  numbers to the sampled logic level for the current tick (the C code reads
  the pin exactly once per `Sample_Button` call).
-/

/-- Queue control structure, mirroring `QueueType` of `queue.h`.  `Buffer` is
the caller-owned byte array, `Elements` the slot count, `Size` the element
byte size, `Head`/`Tail` the write/read slot indices, `Empty`/`Full` the
status flags. -/
structure QueueType where
  Buffer : Nat → Nat
  Elements : Nat
  Size : Nat
  Head : Nat
  Tail : Nat
  Empty : Bool
  Full : Bool

/-- Model of `memcpy( &((uint8_t*)Buffer)[off], Data, count )`: the `count`
bytes starting at offset `off` are replaced by the bytes of `src`. -/
def memcpyToBuffer (buf : Nat → Nat) (off : Nat) (src : List Nat) (count : Nat) : Nat → Nat :=
  fun i => if off ≤ i ∧ i < off + count then src.getD (i - off) 0 else buf i

/-- Model of `memcpy( Data, &((uint8_t*)Buffer)[off], count )`: the list of
the `count` bytes of the buffer starting at offset `off`. -/
def memcpyFromBuffer (buf : Nat → Nat) (off : Nat) (count : Nat) : List Nat :=
  (List.range count).map fun i => buf (off + i)

/-- `Queue_Init` of `queue.c`: binds the buffer and sets
`Empty = TRUE`, `Full = FALSE`, `Head = Tail = 0`. -/
def Queue_Init (Buffer : Nat → Nat) (Elements : Nat) (Size : Nat) : QueueType :=
  { Buffer := Buffer
    Elements := Elements
    Size := Size
    Head := 0
    Tail := 0
    Empty := true
    Full := false }

/-- `Queue_WriteData` of `queue.c`.  If the queue is not full: copy `Size`
bytes of `Data` into slot `Head`, clear `Empty`, advance
`Head = (Head + 1) % Elements`, set `Full` when the new head reaches `Tail`,
and return `TRUE`.  Otherwise return `FALSE` with the state unchanged. -/
def Queue_WriteData (Queue : QueueType) (Data : List Nat) : QueueType × Bool :=
  if Queue.Full = false then
    let q1 : QueueType :=
      { Queue with
        Buffer := memcpyToBuffer Queue.Buffer (Queue.Head * Queue.Size) Data Queue.Size
        Empty := false
        Head := (Queue.Head + 1) % Queue.Elements }
    (if q1.Head = q1.Tail then { q1 with Full := true } else q1, true)
  else
    (Queue, false)

/-- `Queue_ReadData` of `queue.c`.  If the queue is not empty: read the `Size`
bytes of slot `Tail`, clear `Full`, advance `Tail = (Tail + 1) % Elements`,
set `Empty` when the new tail reaches `Head`, and return the bytes (C returns
`TRUE` and fills the out-parameter).  Otherwise return `none` with the state
unchanged (C returns `FALSE`). -/
def Queue_ReadData (Queue : QueueType) : QueueType × Option (List Nat) :=
  if Queue.Empty = false then
    let d := memcpyFromBuffer Queue.Buffer (Queue.Tail * Queue.Size) Queue.Size
    let q1 : QueueType :=
      { Queue with
        Full := false
        Tail := (Queue.Tail + 1) % Queue.Elements }
    (if q1.Tail = q1.Head then { q1 with Empty := true } else q1, some d)
  else
    (Queue, none)

/-- `Queue_isQueueEmpty` of `queue.c`: returns the `Empty` flag. -/
def Queue_isQueueEmpty (Queue : QueueType) : Bool :=
  Queue.Empty

/-- `Queue_FlushQueue` of `queue.c`: re-runs `Queue_Init` on the same buffer,
capacity and element size. -/
def Queue_FlushQueue (Queue : QueueType) : QueueType :=
  Queue_Init Queue.Buffer Queue.Elements Queue.Size

/-- One public queue operation (the state-changing API surface used to define
reachability of queue states). -/
inductive QOp where
  | write (d : List Nat)
  | read
  | isEmpty
  | flush

/-- State change performed by one queue operation. -/
def Queue_applyOp (q : QueueType) : QOp → QueueType
  | QOp.write d => (Queue_WriteData q d).1
  | QOp.read => (Queue_ReadData q).1
  | QOp.isEmpty => q
  | QOp.flush => Queue_FlushQueue q

/-- Run a sequence of queue operations from a starting state. -/
def Queue_run (q : QueueType) : List QOp → QueueType
  | [] => q
  | op :: ops => Queue_run (Queue_applyOp q op) ops

/-- Write a list of elements one after the other with `Queue_WriteData`;
the returned flag is the conjunction of all the individual return values. -/
def Queue_writeAll (q : QueueType) : List (List Nat) → QueueType × Bool
  | [] => (q, true)
  | d :: ds =>
    let r := Queue_WriteData q d
    let r2 := Queue_writeAll r.1 ds
    (r2.1, r.2 && r2.2)

/-- Read `n` elements one after the other with `Queue_ReadData`, collecting
the returned values. -/
def Queue_readAll (q : QueueType) : Nat → QueueType × List (Option (List Nat))
  | 0 => (q, [])
  | n + 1 =>
    let r := Queue_ReadData q
    let r2 := Queue_readAll r.1 n
    (r2.1, r.2 :: r2.2)

/-- The structural queue invariant claimed by the spec for reachable states. -/
def QueueInv (q : QueueType) : Prop :=
  0 < q.Elements ∧ q.Head < q.Elements ∧ q.Tail < q.Elements ∧
    (q.Full = true → q.Head = q.Tail) ∧ (q.Empty = true → q.Head = q.Tail) ∧
    ¬(q.Full = true ∧ q.Empty = true)

/-- Well-definedness of one `Queue_WriteData` call on a given state: either
the call is a no-op (queue full), or the divisor `Queue->Elements` of
`Head %= Elements` is nonzero and the `memcpy` byte range
`[Head * Size, Head * Size + Size)` lies inside the declared
`Elements * Size` bytes of the buffer. -/
def Queue_WriteData_defined (q : QueueType) : Prop :=
  q.Full = true ∨ (q.Elements ≠ 0 ∧ q.Head * q.Size + q.Size ≤ q.Elements * q.Size)

/-- Well-definedness of one `Queue_ReadData` call on a given state, in the
same sense as `Queue_WriteData_defined`. -/
def Queue_ReadData_defined (q : QueueType) : Prop :=
  q.Empty = true ∨ (q.Elements ≠ 0 ∧ q.Tail * q.Size + q.Size ≤ q.Elements * q.Size)

/-- Representation relation between a queue state and the abstract FIFO
content `m` (the stored byte strings, oldest first), for a queue of capacity
`C` and element size `S`. -/
structure QRep (C S : Nat) (q : QueueType) (m : List (List Nat)) : Prop where
  elems : q.Elements = C
  size : q.Size = S
  cap_pos : 0 < C
  head_lt : q.Head < C
  tail_lt : q.Tail < C
  len_le : m.length ≤ C
  head_eq : q.Head = (q.Tail + m.length) % C
  full_iff : q.Full = true ↔ m.length = C
  empty_iff : q.Empty = true ↔ m.length = 0
  content : ∀ i (h : i < m.length),
    memcpyFromBuffer q.Buffer (((q.Tail + i) % C) * S) S = m.get ⟨i, h⟩
  entry_len : ∀ d ∈ m, d.length = S

/-- States of the button state machine (`ButtonStates` of `buttons.c`). -/
inductive ButtonStates where
  | ST_IDLE
  | ST_PRESS
  | ST_HOLD
  | ST_RELEASE
deriving DecidableEq

/-- `BTN_IDLE` of `buttons.h` (no pending event). -/
def BTN_IDLE : Nat := 0

/-- `BTN_PRESSED` of `buttons.h`. -/
def BTN_PRESSED : Nat := 1

/-- `BTN_RELEASED` of `buttons.h`. -/
def BTN_RELEASED : Nat := 2

/-- `BTN_INACTIVE` of `buttons.h`. -/
def BTN_INACTIVE : Nat := 0

/-- `BTN_ACTIVE` of `buttons.h`. -/
def BTN_ACTIVE : Nat := 1

/-- Button control structure, mirroring `ButtonType` of `buttons.h`. -/
structure ButtonType where
  Pin : Nat
  Port : Nat
  Counter : Nat
  Event : Nat
  Status : Nat
  ActiveLevel : Nat
  smState : ButtonStates
deriving DecidableEq

/-- Keyboard control structure, mirroring `KeyboardType` of `buttons.h`:
`Buttons` is the declared capacity, `Sample` the confirmation threshold,
`Counter` the number of registered buttons, `BtnBuffer` the caller-owned
array of button entries. -/
structure KeyboardType where
  Buttons : Nat
  Sample : Nat
  Counter : Nat
  BtnBuffer : List ButtonType
deriving DecidableEq

/-- Placeholder entry used with `List.getD`; it stands for the arbitrary
memory contents of a caller-provided, not yet registered array slot. -/
def defaultButton : ButtonType :=
  { Pin := 0
    Port := 0
    Counter := 0
    Event := 0
    Status := 0
    ActiveLevel := 0
    smState := ButtonStates.ST_IDLE }

/-- `Buttons_Init` of `buttons.c`: binds the caller storage, records the
capacity and the confirmation threshold, and zeroes the registered count. -/
def Buttons_Init (NButtons : Nat) (Samples : Nat) (Buffer : List ButtonType) : KeyboardType :=
  { Buttons := NButtons, Sample := Samples, Counter := 0, BtnBuffer := Buffer }

/-- `Buttons_Register` of `buttons.c`: when `Counter < Buttons`, fill the
entry at index `Counter` (pin, port, active level; status inactive, event
none, state machine idle — the `Counter` field of the entry is left as the
arbitrary memory contents, exactly as in the C code), increment the count and
return it (the 1-based index); otherwise return `0` with nothing changed. -/
def Buttons_Register (k : KeyboardType) (Pin : Nat) (Port : Nat) (ActiveLevel : Nat) :
    KeyboardType × Nat :=
  if k.Counter < k.Buttons then
    let old := k.BtnBuffer.getD k.Counter defaultButton
    let newBtn : ButtonType :=
      { old with
        Pin := Pin
        Port := Port
        ActiveLevel := ActiveLevel
        Status := BTN_INACTIVE
        Event := BTN_IDLE
        smState := ButtonStates.ST_IDLE }
    ({ k with BtnBuffer := k.BtnBuffer.set k.Counter newBtn, Counter := k.Counter + 1 },
      k.Counter + 1)
  else
    (k, 0)

/-- Array access `BtnBuffer[i]` with a C `int` index, as produced by the
integer promotion in `BtnBuffer[Button - 1]`.  `none` marks an access outside
the array, which is undefined behaviour in the C program. -/
def btnGet (l : List ButtonType) (i : Int) : Option ButtonType :=
  if 0 ≤ i then l[i.toNat]? else none

/-- `Buttons_GetStatus` of `buttons.c`: `result = BTN_INACTIVE;
if (Button < Counter) result = BtnBuffer[Button - 1].Status;`.  The returned
`none` marks the undefined out-of-bounds read `BtnBuffer[-1]` that the C code
performs when `Button = 0` and `Counter > 0`. -/
def Buttons_GetStatus (k : KeyboardType) (Button : Nat) : Option Nat :=
  if Button < k.Counter then
    (btnGet k.BtnBuffer ((Button : Int) - 1)).map (fun b => b.Status)
  else
    some BTN_INACTIVE

/-- `Buttons_GetEvent` of `buttons.c`: `if (Button <= Counter)` return
`BtnBuffer[Button - 1].Event` and clear that field to `BTN_IDLE`; otherwise
return `BTN_IDLE`.  The returned `none` marks the undefined out-of-bounds
read and write of `BtnBuffer[-1]` that the C code performs when
`Button = 0` (the guard `0 <= Counter` always holds). -/
def Buttons_GetEvent (k : KeyboardType) (Button : Nat) : KeyboardType × Option Nat :=
  if Button ≤ k.Counter then
    match btnGet k.BtnBuffer ((Button : Int) - 1) with
    | some b =>
      ({ k with BtnBuffer := k.BtnBuffer.set (Button - 1) { b with Event := BTN_IDLE } },
        some b.Event)
    | none => (k, none)
  else
    (k, some BTN_IDLE)

/-- `Sample_Button` of `buttons.c`, one debounce tick of one button.
`level` is the value returned by `HAL_GPIO_ReadPin` for this tick (the C code
reads the pin exactly once per call).  Note that in `ST_PRESS` and
`ST_RELEASE` the threshold comparison `Counter >= Samples` is evaluated even
when the level check just reverted the state, exactly as in the source. -/
def Sample_Button (Button : ButtonType) (Samples : Nat) (level : Nat) : ButtonType :=
  match Button.smState with
  | ButtonStates.ST_IDLE =>
    if level = Button.ActiveLevel then
      { Button with smState := ButtonStates.ST_PRESS, Counter := 0 }
    else
      Button
  | ButtonStates.ST_PRESS =>
    let b1 : ButtonType := { Button with Counter := Button.Counter + 1 }
    let b2 : ButtonType :=
      if level ≠ b1.ActiveLevel then { b1 with smState := ButtonStates.ST_IDLE } else b1
    if Samples ≤ b2.Counter then
      { b2 with Event := BTN_PRESSED, Status := BTN_ACTIVE, smState := ButtonStates.ST_HOLD }
    else
      b2
  | ButtonStates.ST_HOLD =>
    if level ≠ Button.ActiveLevel then
      { Button with smState := ButtonStates.ST_RELEASE, Counter := 0 }
    else
      Button
  | ButtonStates.ST_RELEASE =>
    let b1 : ButtonType := { Button with Counter := Button.Counter + 1 }
    let b2 : ButtonType :=
      if level = b1.ActiveLevel then { b1 with smState := ButtonStates.ST_HOLD } else b1
    if Samples ≤ b2.Counter then
      { b2 with Event := BTN_RELEASED, Status := BTN_INACTIVE, smState := ButtonStates.ST_IDLE }
    else
      b2

/-- The `for` loop of `Buttons_MainFunction`: sample the buttons at indices
`0 .. count - 1` in order.  `readPin` is the pin-read capability: it maps the
button's port and pin numbers to the sampled level of this tick. -/
def sampleLoop (Samples : Nat) (readPin : Nat → Nat → Nat) :
    List ButtonType → Nat → List ButtonType
  | buf, 0 => buf
  | buf, n + 1 =>
    let buf2 := sampleLoop Samples readPin buf n
    let b := buf2.getD n defaultButton
    buf2.set n (Sample_Button b Samples (readPin b.Port b.Pin))

/-- `Buttons_MainFunction` of `buttons.c`: sample every registered button
once, in registration order. -/
def Buttons_MainFunction (k : KeyboardType) (readPin : Nat → Nat → Nat) : KeyboardType :=
  { k with BtnBuffer := sampleLoop k.Sample readPin k.BtnBuffer k.Counter }

/-- Run `Sample_Button` on one button over a list of per-tick pin levels. -/
def runButton (b : ButtonType) (Samples : Nat) : List Nat → ButtonType
  | [] => b
  | l :: ls => runButton (Sample_Button b Samples l) Samples ls

/-- The configuration fields of a button: pin, port and active level. -/
def buttonConfig (b : ButtonType) : Nat × Nat × Nat :=
  (b.Pin, b.Port, b.ActiveLevel)

/-- A fresh single button wired to port 0, pin 0, active level 1, in the
post-registration state (inactive, no event, idle). -/
def glitchButton : ButtonType :=
  { Pin := 0
    Port := 0
    Counter := 0
    Event := BTN_IDLE
    Status := BTN_INACTIVE
    ActiveLevel := 1
    smState := ButtonStates.ST_IDLE }

/-- A keyboard built through the public API: capacity 2, threshold 2, one
button registered, then three `Buttons_MainFunction` ticks with the pin held
at the active level, which confirms the press (status active, pending
`BTN_PRESSED` event). -/
def c4kb : KeyboardType :=
  let k0 := Buttons_Init 2 2 [defaultButton, defaultButton]
  let k1 := (Buttons_Register k0 5 0 1).1
  let act : Nat → Nat → Nat := fun _ _ => 1
  Buttons_MainFunction (Buttons_MainFunction (Buttons_MainFunction k1 act) act) act

/-! ## General list helpers -/

/-- `getD` at an in-bounds index is `get`. -/
theorem List_getD_lt {α : Type} (l : List α) (j : Nat) (d : α) (h : j < l.length) :
    l.getD j d = l.get ⟨j, h⟩ := by
  simp [List.getD_eq_getElem?_getD, List.getElem?_eq_getElem h, List.get_eq_getElem]

/-- `getD` after `set`, all cases. -/
theorem List_getD_set {α : Type} (l : List α) (n j : Nat) (v d : α) :
    (l.set n v).getD j d = if j = n ∧ n < l.length then v else l.getD j d := by
  by_cases h1 : j = n ∧ n < l.length
  · rw [if_pos h1]
    obtain ⟨rfl, h2⟩ := h1
    have h3 : j < (l.set j v).length := by simpa using h2
    rw [List_getD_lt _ _ _ h3]
    simp [List.get_eq_getElem]
  · rw [if_neg h1]
    by_cases h2 : j = n
    · subst h2
      have h3 : l.length ≤ j := by
        rcases Nat.lt_or_ge j l.length with h4 | h4
        · exact absurd ⟨rfl, h4⟩ h1
        · exact h4
      rw [List.set_eq_of_length_le h3]
    · simp [List.getD_eq_getElem?_getD, List.getElem?_set_ne (fun h => h2 h.symm)]

/-! ## Button claims on concrete runs -/

/-- C1: the claim fails on the code.  With confirmation threshold `N = 2` and
the pin-sample sequence `[active, active, inactive]`, the third tick's sample
contradicts the active level while the state machine is in `PRESS`; instead
of resetting the attempt without an event, the code emits `BTN_PRESSED`, sets
`BTN_ACTIVE` and moves to `HOLD` on that very tick (the threshold comparison
`Counter >= Samples` in `ST_PRESS` is not guarded by the glitch check), while
after only the two active ticks no event had been emitted yet. -/
theorem C1_press_confirmed_on_contradicting_tick :
    (runButton glitchButton 2 [1, 1, 0]).Event = BTN_PRESSED ∧
    (runButton glitchButton 2 [1, 1, 0]).Status = BTN_ACTIVE ∧
    (runButton glitchButton 2 [1, 1, 0]).smState = ButtonStates.ST_HOLD ∧
    (runButton glitchButton 2 [1, 1]).Event = BTN_IDLE ∧
    (runButton glitchButton 2 [1, 1]).Status = BTN_INACTIVE := by
  decide

/-- C6 counterexample: with threshold 3 and pin reads
`[active, active, inactive, active, active, active]`, the button does NOT
have a pressed event nor active status immediately after sample 6, contrary
to the claim. -/
theorem C6_not_confirmed_at_sample_six :
    ¬((runButton glitchButton 3 [1, 1, 0, 1, 1, 1]).Event = BTN_PRESSED ∧
      (runButton glitchButton 3 [1, 1, 0, 1, 1, 1]).Status = BTN_ACTIVE) := by
  decide

/-- C6 (amended): threshold 3, pin reads `[active, active, inactive, active,
active, active]` — the confirmation attempt is reset exactly once, at sample
3 (the state machine is back in `IDLE` there and only there), no event or
active status is produced during the six samples, and after sample 6 the
button is still confirming (state `PRESS`, counter 2); a seventh consecutive
active sample reaches the threshold and confirms the pressed event and
active status, because the sample that re-enters `PRESS` does not increment
the counter. -/
theorem C6_scenario_amended :
    (runButton glitchButton 3 [1]).smState = ButtonStates.ST_PRESS ∧
    (runButton glitchButton 3 [1, 1]).smState = ButtonStates.ST_PRESS ∧
    (runButton glitchButton 3 [1, 1, 0]).smState = ButtonStates.ST_IDLE ∧
    (runButton glitchButton 3 [1, 1, 0]).Event = BTN_IDLE ∧
    (runButton glitchButton 3 [1, 1, 0]).Status = BTN_INACTIVE ∧
    (runButton glitchButton 3 [1, 1, 0, 1]).smState = ButtonStates.ST_PRESS ∧
    (runButton glitchButton 3 [1, 1, 0, 1, 1]).smState = ButtonStates.ST_PRESS ∧
    (runButton glitchButton 3 [1, 1, 0, 1, 1, 1]).smState = ButtonStates.ST_PRESS ∧
    (runButton glitchButton 3 [1, 1, 0, 1, 1, 1]).Event = BTN_IDLE ∧
    (runButton glitchButton 3 [1, 1, 0, 1, 1, 1]).Status = BTN_INACTIVE ∧
    (runButton glitchButton 3 [1, 1, 0, 1, 1, 1]).Counter = 2 ∧
    (runButton glitchButton 3 [1, 1, 0, 1, 1, 1, 1]).Event = BTN_PRESSED ∧
    (runButton glitchButton 3 [1, 1, 0, 1, 1, 1, 1]).Status = BTN_ACTIVE := by
  decide

/-- C4: the claim fails on the code.  On the keyboard `c4kb` (one registered
button whose confirmed status is `BTN_ACTIVE`), `Buttons_GetStatus` with the
valid 1-based index 1 returns `BTN_INACTIVE` — the guard `Button < Counter`
excludes the last registered button — and with index 0 the guard passes and
the code reads `BtnBuffer[-1]`, an out-of-bounds access (`none` in the
model).  An index greater than the registered count does return inactive. -/
theorem C4_getstatus_bounds :
    (c4kb.BtnBuffer.getD 0 defaultButton).Status = BTN_ACTIVE ∧
    Buttons_GetStatus c4kb 1 = some BTN_INACTIVE ∧
    Buttons_GetStatus c4kb 0 = none ∧
    Buttons_GetStatus c4kb 2 = some BTN_INACTIVE := by
  decide

/-- C5: the claim fails on the code for index 0.  `Buttons_GetEvent` with
index 0 always passes the guard `Button <= Counter` and the code reads and
clears `BtnBuffer[-1]`, an out-of-bounds access (`none` in the model),
instead of returning the no-event value with no side effect.  For a valid
index the call does return the pending event and clears it, and an index
greater than the registered count returns `BTN_IDLE` with no state change. -/
theorem C5_getevent_bounds :
    (Buttons_GetEvent c4kb 0).2 = none ∧
    (Buttons_GetEvent c4kb 0).1 = c4kb ∧
    (Buttons_GetEvent c4kb 1).2 = some BTN_PRESSED ∧
    ((Buttons_GetEvent c4kb 1).1.BtnBuffer.getD 0 defaultButton).Event = BTN_IDLE ∧
    Buttons_GetEvent c4kb 5 = (c4kb, some BTN_IDLE) := by
  decide

/-! ## Indexed access helpers for the button array -/

/-- For a 1-based index `i ≥ 1` in bounds, `BtnBuffer[i - 1]` is the entry
`i - 1` of the list. -/
theorem btnGet_pos (l : List ButtonType) (i : Nat) (h1 : 1 ≤ i) (h : i - 1 < l.length) :
    btnGet l ((i : Int) - 1) = some (l.get ⟨i - 1, h⟩) := by
  unfold btnGet
  rw [if_pos (by omega : (0 : Int) ≤ (i : Int) - 1)]
  have h2 : ((i : Int) - 1).toNat = i - 1 := by omega
  rw [h2, List.getElem?_eq_getElem h]
  simp [List.get_eq_getElem]

/-- Inversion: a successful `BtnBuffer[i - 1]` access means `i ≥ 1`, the
index is in bounds and the value is the list entry. -/
theorem btnGet_some_inv (l : List ButtonType) (i : Nat) (b : ButtonType)
    (h : btnGet l ((i : Int) - 1) = some b) :
    ∃ hlt : i - 1 < l.length, 1 ≤ i ∧ b = l.get ⟨i - 1, hlt⟩ := by
  unfold btnGet at h
  by_cases h0 : (0 : Int) ≤ (i : Int) - 1
  · rw [if_pos h0] at h
    have h1 : 1 ≤ i := by omega
    have h2 : ((i : Int) - 1).toNat = i - 1 := by omega
    rw [h2] at h
    have h3 : i - 1 < l.length := by
      by_contra h4
      rw [List.getElem?_eq_none (by omega)] at h
      exact Option.noConfusion h
    refine ⟨h3, h1, ?_⟩
    rw [List.getElem?_eq_getElem h3] at h
    simp [List.get_eq_getElem]
    exact (Option.some.inj h).symm
  · rw [if_neg h0] at h
    exact Option.noConfusion h

/-- `Buttons_GetEvent` on a valid 1-based index `1 â¤ i â¤ Counter` (with the
registered entries inside the caller array): the registered count and the
array length are unchanged, the entry's pending event is returned, and that
entry's event field is cleared to `BTN_IDLE`. -/
theorem Buttons_GetEvent_parts (k : KeyboardType) (i : Nat) (h1 : 1 ≤ i)
    (h2 : i ≤ k.Counter) (h3 : i - 1 < k.BtnBuffer.length) :
    (Buttons_GetEvent k i).1.Counter = k.Counter ∧
    (Buttons_GetEvent k i).1.BtnBuffer.length = k.BtnBuffer.length ∧
    (Buttons_GetEvent k i).2 = some ((k.BtnBuffer.getD (i - 1) defaultButton).Event) ∧
    ((Buttons_GetEvent k i).1.BtnBuffer.getD (i - 1) defaultButton).Event = BTN_IDLE := by
  unfold Buttons_GetEvent
  rw [if_pos h2, btnGet_pos k.BtnBuffer i h1 h3]
  refine ⟨rfl, by simp, ?_, ?_⟩
  · rw [List_getD_lt k.BtnBuffer (i - 1) defaultButton h3]
  · rw [List_getD_set, if_pos ⟨rfl, h3⟩]

/-- C7: one-shot event delivery.  For a registered 1-based index
`1 ≤ i ≤ Counter` (entries inside the caller array), the call immediately
following a `Buttons_GetEvent` on the same index returns the no-event value
`BTN_IDLE`, whatever the first call returned. -/
theorem C7_event_one_shot (k : KeyboardType) (i : Nat) (h1 : 1 ≤ i) (h2 : i ≤ k.Counter)
    (h3 : k.Counter ≤ k.BtnBuffer.length) :
    (Buttons_GetEvent (Buttons_GetEvent k i).1 i).2 = some BTN_IDLE := by
  have hlt : i - 1 < k.BtnBuffer.length := by omega
  obtain ⟨hc1, hl1, _, he1⟩ := Buttons_GetEvent_parts k i h1 h2 hlt
  obtain ⟨_, _, hv2, _⟩ :=
    Buttons_GetEvent_parts (Buttons_GetEvent k i).1 i h1 (by rw [hc1]; exact h2)
      (by rw [hl1]; exact hlt)
  rw [hv2, he1]

/-- C7 witness: on the concrete keyboard `c4kb` (one registered button with a
pending pressed event), reading the event twice yields `BTN_IDLE` the second
time. -/
theorem C7_event_one_shot_witness :
    (Buttons_GetEvent (Buttons_GetEvent c4kb 1).1 1).2 = some BTN_IDLE :=
  C7_event_one_shot c4kb 1 (by decide) (by decide) (by decide)

/-- C8: `Buttons_Register`.  Below capacity (and with the entry inside the
caller array): the entry at index `Counter` receives the pin, port, active
level, inactive status, no event and idle state, the count is incremented and
returned as the 1-based index, every other entry is untouched.  At capacity:
the zero sentinel is returned and the whole state is unchanged.  In all
cases a count bounded by the capacity stays bounded by it. -/
theorem C8_register (k : KeyboardType) (pin port lvl : Nat) :
    (k.Counter < k.Buttons → k.Counter < k.BtnBuffer.length →
      (Buttons_Register k pin port lvl).2 = k.Counter + 1 ∧
      (Buttons_Register k pin port lvl).1.Counter = k.Counter + 1 ∧
      (Buttons_Register k pin port lvl).1.Buttons = k.Buttons ∧
      (Buttons_Register k pin port lvl).1.Sample = k.Sample ∧
      ((Buttons_Register k pin port lvl).1.BtnBuffer.getD k.Counter defaultButton).Pin = pin ∧
      ((Buttons_Register k pin port lvl).1.BtnBuffer.getD k.Counter defaultButton).Port = port ∧
      ((Buttons_Register k pin port lvl).1.BtnBuffer.getD k.Counter
        defaultButton).ActiveLevel = lvl ∧
      ((Buttons_Register k pin port lvl).1.BtnBuffer.getD k.Counter
        defaultButton).Status = BTN_INACTIVE ∧
      ((Buttons_Register k pin port lvl).1.BtnBuffer.getD k.Counter
        defaultButton).Event = BTN_IDLE ∧
      ((Buttons_Register k pin port lvl).1.BtnBuffer.getD k.Counter
        defaultButton).smState = ButtonStates.ST_IDLE ∧
      (∀ j, j ≠ k.Counter →
        (Buttons_Register k pin port lvl).1.BtnBuffer.getD j defaultButton
          = k.BtnBuffer.getD j defaultButton)) ∧
    (k.Counter = k.Buttons → Buttons_Register k pin port lvl = (k, 0)) ∧
    (k.Counter ≤ k.Buttons → (Buttons_Register k pin port lvl).1.Counter ≤ k.Buttons) := by
  refine ⟨?_, ?_, ?_⟩
  · intro hcb hcl
    unfold Buttons_Register
    rw [if_pos hcb]
    refine ⟨rfl, rfl, rfl, rfl, ?_, ?_, ?_, ?_, ?_, ?_, ?_⟩
    · rw [List_getD_set, if_pos ⟨rfl, hcl⟩]
    · rw [List_getD_set, if_pos ⟨rfl, hcl⟩]
    · rw [List_getD_set, if_pos ⟨rfl, hcl⟩]
    · rw [List_getD_set, if_pos ⟨rfl, hcl⟩]
    · rw [List_getD_set, if_pos ⟨rfl, hcl⟩]
    · rw [List_getD_set, if_pos ⟨rfl, hcl⟩]
    · intro j hj
      rw [List_getD_set, if_neg (fun hc => hj hc.1)]
  · intro he
    unfold Buttons_Register
    rw [if_neg (by omega)]
  · intro hle
    unfold Buttons_Register
    by_cases hcb : k.Counter < k.Buttons
    · rw [if_pos hcb]
      exact hcb
    · rw [if_neg hcb]
      exact hle

/-- C8 witness: concrete registration below capacity, at capacity, and the
capacity bound, on keyboards built with `Buttons_Init`. -/
theorem C8_register_witness :
    (Buttons_Register (Buttons_Init 2 2 [defaultButton, defaultButton]) 5 1 1).2
      = (Buttons_Init 2 2 [defaultButton, defaultButton]).Counter + 1 ∧
    Buttons_Register (Buttons_Init 0 2 []) 5 1 1 = (Buttons_Init 0 2 [], 0) ∧
    (Buttons_Register (Buttons_Init 2 2 [defaultButton, defaultButton]) 5 1 1).1.Counter
      ≤ (Buttons_Init 2 2 [defaultButton, defaultButton]).Buttons :=
  ⟨((C8_register (Buttons_Init 2 2 [defaultButton, defaultButton]) 5 1 1).1
      (by decide) (by decide)).1,
    (C8_register (Buttons_Init 0 2 []) 5 1 1).2.1 (by decide),
    (C8_register (Buttons_Init 2 2 [defaultButton, defaultButton]) 5 1 1).2.2 (by decide)⟩

/-! ## Configuration frame lemmas -/

/-- One debounce tick never changes a button's pin, port or active level. -/
theorem Sample_Button_config (b : ButtonType) (s lvl : Nat) :
    buttonConfig (Sample_Button b s lvl) = buttonConfig b := by
  obtain ⟨p, po, c, e, st, al, sm⟩ := b
  cases sm <;> simp only [Sample_Button] <;> split_ifs <;> simp [buttonConfig]

/-- The sampling loop preserves the array length. -/
theorem sampleLoop_length (s : Nat) (r : Nat → Nat → Nat) (buf : List ButtonType) (n : Nat) :
    (sampleLoop s r buf n).length = buf.length := by
  induction n with
  | zero => rfl
  | succ n ih => simp [sampleLoop, ih]

/-- The sampling loop preserves every entry's pin, port and active level. -/
theorem sampleLoop_config (s : Nat) (r : Nat → Nat → Nat) (buf : List ButtonType) (n j : Nat) :
    buttonConfig ((sampleLoop s r buf n).getD j defaultButton)
      = buttonConfig (buf.getD j defaultButton) := by
  induction n with
  | zero => rfl
  | succ n ih =>
    simp only [sampleLoop]
    rw [List_getD_set]
    by_cases hj : j = n ∧ n < (sampleLoop s r buf n).length
    · rw [if_pos hj]
      obtain ⟨rfl, h2⟩ := hj
      rw [Sample_Button_config]
      exact ih
    · rw [if_neg hj]
      exact ih

/-- C10: configuration immutability and frame.  A debounce tick never
changes a button's pin, port or active level; `Buttons_MainFunction` leaves
the capacity, the confirmation threshold, the registered count, the array
length and every entry's configuration unchanged; `Buttons_GetEvent` leaves
the capacity, threshold, count and every entry's configuration unchanged;
`Buttons_Register` leaves the capacity, the threshold and every entry other
than the one at index `Counter` (the single slot it writes) unchanged.
`Buttons_GetStatus` is a pure function of the state in this embedding
(type `KeyboardType → Nat → Option Nat`), so it modifies nothing by
construction. -/
theorem C10_config_frame :
    (∀ (b : ButtonType) (s lvl : Nat),
      buttonConfig (Sample_Button b s lvl) = buttonConfig b) ∧
    (∀ (k : KeyboardType) (r : Nat → Nat → Nat),
      (Buttons_MainFunction k r).Buttons = k.Buttons ∧
      (Buttons_MainFunction k r).Sample = k.Sample ∧
      (Buttons_MainFunction k r).Counter = k.Counter ∧
      (Buttons_MainFunction k r).BtnBuffer.length = k.BtnBuffer.length ∧
      (∀ j, buttonConfig ((Buttons_MainFunction k r).BtnBuffer.getD j defaultButton)
        = buttonConfig (k.BtnBuffer.getD j defaultButton))) ∧
    (∀ (k : KeyboardType) (i : Nat),
      (Buttons_GetEvent k i).1.Buttons = k.Buttons ∧
      (Buttons_GetEvent k i).1.Sample = k.Sample ∧
      (Buttons_GetEvent k i).1.Counter = k.Counter ∧
      (∀ j, buttonConfig ((Buttons_GetEvent k i).1.BtnBuffer.getD j defaultButton)
        = buttonConfig (k.BtnBuffer.getD j defaultButton))) ∧
    (∀ (k : KeyboardType) (pin port lvl : Nat),
      (Buttons_Register k pin port lvl).1.Buttons = k.Buttons ∧
      (Buttons_Register k pin port lvl).1.Sample = k.Sample ∧
      (∀ j, j ≠ k.Counter →
        (Buttons_Register k pin port lvl).1.BtnBuffer.getD j defaultButton
          = k.BtnBuffer.getD j defaultButton)) := by
  refine ⟨Sample_Button_config, ?_, ?_, ?_⟩
  · intro k r
    exact ⟨rfl, rfl, rfl, sampleLoop_length k.Sample r k.BtnBuffer k.Counter,
      fun j => sampleLoop_config k.Sample r k.BtnBuffer k.Counter j⟩
  · intro k i
    unfold Buttons_GetEvent
    by_cases hle : i ≤ k.Counter
    · rw [if_pos hle]
      cases hbt : btnGet k.BtnBuffer ((i : Int) - 1) with
      | none => exact ⟨rfl, rfl, rfl, fun j => rfl⟩
      | some b =>
        obtain ⟨hlt, h1, hb⟩ := btnGet_some_inv k.BtnBuffer i b hbt
        refine ⟨rfl, rfl, rfl, ?_⟩
        intro j
        dsimp only
        rw [List_getD_set]
        by_cases hj : j = i - 1 ∧ i - 1 < k.BtnBuffer.length
        · rw [if_pos hj]
          obtain ⟨rfl, h2⟩ := hj
          have h4 : buttonConfig ({ b with Event := BTN_IDLE } : ButtonType)
              = buttonConfig b := rfl
          rw [h4, hb, List_getD_lt k.BtnBuffer (i - 1) defaultButton h2]
        · rw [if_neg hj]
    · rw [if_neg hle]
      exact ⟨rfl, rfl, rfl, fun j => rfl⟩
  · intro k pin port lvl
    unfold Buttons_Register
    by_cases hcb : k.Counter < k.Buttons
    · rw [if_pos hcb]
      refine ⟨rfl, rfl, ?_⟩
      intro j hj
      dsimp only
      rw [List_getD_set, if_neg (fun hc => hj hc.1)]
    · rw [if_neg hcb]
      exact ⟨rfl, rfl, fun j hj => rfl⟩

/-- C10 witness: the frame properties applied to the concrete keyboard
`c4kb` and the concrete button `glitchButton`. -/
theorem C10_config_frame_witness :
    buttonConfig (Sample_Button glitchButton 2 1) = buttonConfig glitchButton ∧
    (Buttons_MainFunction c4kb (fun _ _ => 0)).Counter = c4kb.Counter ∧
    buttonConfig ((Buttons_GetEvent c4kb 1).1.BtnBuffer.getD 0 defaultButton)
      = buttonConfig (c4kb.BtnBuffer.getD 0 defaultButton) ∧
    (Buttons_Register c4kb 9 9 9).1.BtnBuffer.getD 0 defaultButton
      = c4kb.BtnBuffer.getD 0 defaultButton :=
  ⟨C10_config_frame.1 glitchButton 2 1,
    (C10_config_frame.2.1 c4kb (fun _ _ => 0)).2.2.1,
    (C10_config_frame.2.2.1 c4kb 1).2.2.2 0,
    (C10_config_frame.2.2.2 c4kb 9 9 9).2.2 0 (by decide)⟩

/-! ## Queue invariant -/

/-- `Queue_Init` establishes the structural invariant for a nonzero
capacity. -/
theorem QueueInv_init (buf : Nat → Nat) (C S : Nat) (hC : 0 < C) :
    QueueInv (Queue_Init buf C S) := by
  refine ⟨hC, hC, hC, ?_, ?_, ?_⟩ <;> simp [Queue_Init]

/-- `Queue_WriteData` preserves the structural invariant. -/
theorem QueueInv_write (q : QueueType) (d : List Nat) (h : QueueInv q) :
    QueueInv (Queue_WriteData q d).1 := by
  obtain ⟨hE, hH, hT, hF, hEm, hFE⟩ := h
  unfold Queue_WriteData
  by_cases hf : q.Full = false
  · rw [if_pos hf]
    dsimp only
    by_cases hht : (q.Head + 1) % q.Elements = q.Tail
    · rw [if_pos hht]
      exact ⟨hE, Nat.mod_lt _ hE, hT, fun _ => hht, fun hc => absurd hc (by simp),
        by simp⟩
    · rw [if_neg hht]
      exact ⟨hE, Nat.mod_lt _ hE, hT, fun hc => absurd hc (by simp [hf]),
        fun hc => absurd hc (by simp), by simp⟩
  · rw [if_neg hf]
    exact ⟨hE, hH, hT, hF, hEm, hFE⟩

/-- `Queue_ReadData` preserves the structural invariant. -/
theorem QueueInv_read (q : QueueType) (h : QueueInv q) :
    QueueInv (Queue_ReadData q).1 := by
  obtain ⟨hE, hH, hT, hF, hEm, hFE⟩ := h
  unfold Queue_ReadData
  by_cases he : q.Empty = false
  · rw [if_pos he]
    dsimp only
    by_cases hth : (q.Tail + 1) % q.Elements = q.Head
    · rw [if_pos hth]
      exact ⟨hE, hH, Nat.mod_lt _ hE, fun hc => absurd hc (by simp),
        fun _ => hth.symm, by simp⟩
    · rw [if_neg hth]
      exact ⟨hE, hH, Nat.mod_lt _ hE, fun hc => absurd hc (by simp),
        fun hc => absurd hc (by simp [he]), by simp [he]⟩
  · rw [if_neg he]
    exact ⟨hE, hH, hT, hF, hEm, hFE⟩

/-- Every queue operation preserves the structural invariant. -/
theorem QueueInv_applyOp (q : QueueType) (op : QOp) (h : QueueInv q) :
    QueueInv (Queue_applyOp q op) := by
  cases op with
  | write d => exact QueueInv_write q d h
  | read => exact QueueInv_read q h
  | isEmpty => exact h
  | flush => exact QueueInv_init q.Buffer q.Elements q.Size h.1

/-- Every queue operation leaves the declared capacity unchanged. -/
theorem Queue_applyOp_elements (q : QueueType) (op : QOp) :
    (Queue_applyOp q op).Elements = q.Elements := by
  cases op with
  | write d =>
    show (Queue_WriteData q d).1.Elements = q.Elements
    unfold Queue_WriteData
    by_cases hf : q.Full = false
    · rw [if_pos hf]
      dsimp only
      by_cases hht : (q.Head + 1) % q.Elements = q.Tail
      · rw [if_pos hht]
      · rw [if_neg hht]
    · rw [if_neg hf]
  | read =>
    show (Queue_ReadData q).1.Elements = q.Elements
    unfold Queue_ReadData
    by_cases he : q.Empty = false
    · rw [if_pos he]
      dsimp only
      by_cases hth : (q.Tail + 1) % q.Elements = q.Head
      · rw [if_pos hth]
      · rw [if_neg hth]
    · rw [if_neg he]
  | isEmpty => rfl
  | flush => rfl

/-- Running any sequence of operations preserves the invariant. -/
theorem Queue_run_inv (ops : List QOp) :
    ∀ q : QueueType, QueueInv q → QueueInv (Queue_run q ops) := by
  induction ops with
  | nil => exact fun q h => h
  | cons op ops ih => exact fun q h => ih (Queue_applyOp q op) (QueueInv_applyOp q op h)

/-- Running any sequence of operations leaves the capacity unchanged. -/
theorem Queue_run_elements (ops : List QOp) :
    ∀ q : QueueType, (Queue_run q ops).Elements = q.Elements := by
  induction ops with
  | nil => exact fun q => rfl
  | cons op ops ih =>
    intro q
    calc (Queue_run (Queue_applyOp q op) ops).Elements
        = (Queue_applyOp q op).Elements := ih (Queue_applyOp q op)
      _ = q.Elements := Queue_applyOp_elements q op

/-- C3: structural invariant of every reachable queue state.  For every
capacity `C ≥ 1` and any sequence of `Queue_WriteData`, `Queue_ReadData`,
`Queue_isQueueEmpty` and `Queue_FlushQueue` calls from `Queue_Init`, the
head and tail indices stay below the capacity, a set `Full` flag and a set
`Empty` flag each force `Head = Tail`, and the two flags are never set
simultaneously. -/
theorem C3_queue_invariant (buf : Nat → Nat) (C S : Nat) (ops : List QOp) (hC : 1 ≤ C) :
    (Queue_run (Queue_Init buf C S) ops).Head < C ∧
    (Queue_run (Queue_Init buf C S) ops).Tail < C ∧
    ((Queue_run (Queue_Init buf C S) ops).Full = true →
      (Queue_run (Queue_Init buf C S) ops).Head = (Queue_run (Queue_Init buf C S) ops).Tail) ∧
    ((Queue_run (Queue_Init buf C S) ops).Empty = true →
      (Queue_run (Queue_Init buf C S) ops).Head = (Queue_run (Queue_Init buf C S) ops).Tail) ∧
    ¬((Queue_run (Queue_Init buf C S) ops).Full = true ∧
      (Queue_run (Queue_Init buf C S) ops).Empty = true) := by
  obtain ⟨h1, h2, h3, h4, h5, h6⟩ :=
    Queue_run_inv ops (Queue_Init buf C S) (QueueInv_init buf C S hC)
  have hEl : (Queue_run (Queue_Init buf C S) ops).Elements = C :=
    Queue_run_elements ops (Queue_Init buf C S)
  rw [hEl] at h2 h3
  exact ⟨h2, h3, h4, h5, h6⟩

/-- C3 witness: the invariant instantiated on a concrete run (capacity 2,
element size 1, a write, a read, a flush and another write). -/
theorem C3_queue_invariant_witness :
    (Queue_run (Queue_Init (fun _ => 0) 2 1)
      [QOp.write [5], QOp.read, QOp.flush, QOp.write [7]]).Head < 2 ∧
    (Queue_run (Queue_Init (fun _ => 0) 2 1)
      [QOp.write [5], QOp.read, QOp.flush, QOp.write [7]]).Tail < 2 ∧
    ((Queue_run (Queue_Init (fun _ => 0) 2 1)
      [QOp.write [5], QOp.read, QOp.flush, QOp.write [7]]).Full = true →
      (Queue_run (Queue_Init (fun _ => 0) 2 1)
        [QOp.write [5], QOp.read, QOp.flush, QOp.write [7]]).Head =
      (Queue_run (Queue_Init (fun _ => 0) 2 1)
        [QOp.write [5], QOp.read, QOp.flush, QOp.write [7]]).Tail) ∧
    ((Queue_run (Queue_Init (fun _ => 0) 2 1)
      [QOp.write [5], QOp.read, QOp.flush, QOp.write [7]]).Empty = true →
      (Queue_run (Queue_Init (fun _ => 0) 2 1)
        [QOp.write [5], QOp.read, QOp.flush, QOp.write [7]]).Head =
      (Queue_run (Queue_Init (fun _ => 0) 2 1)
        [QOp.write [5], QOp.read, QOp.flush, QOp.write [7]]).Tail) ∧
    ¬((Queue_run (Queue_Init (fun _ => 0) 2 1)
      [QOp.write [5], QOp.read, QOp.flush, QOp.write [7]]).Full = true ∧
      (Queue_run (Queue_Init (fun _ => 0) 2 1)
        [QOp.write [5], QOp.read, QOp.flush, QOp.write [7]]).Empty = true) :=
  C3_queue_invariant (fun _ => 0) 2 1
    [QOp.write [5], QOp.read, QOp.flush, QOp.write [7]] (by decide)

/-- C9: the implicit capacity precondition.  After `Queue_Init` with
`Elements = 0` the `Full` flag is `false`, so the next `Queue_WriteData`
takes the write branch and evaluates `Head % 0` — the call is not
well-defined (`Queue_WriteData_defined` fails).  Under the precondition
`Elements = C ≥ 1`, every state reachable through the API keeps both
`Queue_WriteData` and `Queue_ReadData` well-defined: the modulo divisor is
nonzero and the `memcpy` byte ranges stay inside the declared
`Elements * Size` bytes. -/
theorem C9_capacity_precondition :
    (∀ (buf : Nat → Nat) (S : Nat),
      (Queue_Init buf 0 S).Full = false ∧
      ¬ Queue_WriteData_defined (Queue_Init buf 0 S)) ∧
    (∀ (buf : Nat → Nat) (C S : Nat) (ops : List QOp), 1 ≤ C →
      Queue_WriteData_defined (Queue_run (Queue_Init buf C S) ops) ∧
      Queue_ReadData_defined (Queue_run (Queue_Init buf C S) ops)) := by
  constructor
  · intro buf S
    constructor
    · rfl
    · intro hdef
      rcases hdef with hfull | ⟨hne, _⟩
      · exact Bool.noConfusion hfull
      · exact hne rfl
  · intro buf C S ops hC
    obtain ⟨h1, h2, h3, _, _, _⟩ :=
      Queue_run_inv ops (Queue_Init buf C S) (QueueInv_init buf C S hC)
    constructor
    · refine Or.inr ⟨by omega, ?_⟩
      have := Nat.succ_le_of_lt h2
      calc (Queue_run (Queue_Init buf C S) ops).Head * (Queue_run (Queue_Init buf C S) ops).Size
            + (Queue_run (Queue_Init buf C S) ops).Size
          = ((Queue_run (Queue_Init buf C S) ops).Head + 1) *
            (Queue_run (Queue_Init buf C S) ops).Size := by ring
        _ ≤ (Queue_run (Queue_Init buf C S) ops).Elements *
            (Queue_run (Queue_Init buf C S) ops).Size := by
            exact Nat.mul_le_mul_right _ this
    · refine Or.inr ⟨by omega, ?_⟩
      have := Nat.succ_le_of_lt h3
      calc (Queue_run (Queue_Init buf C S) ops).Tail * (Queue_run (Queue_Init buf C S) ops).Size
            + (Queue_run (Queue_Init buf C S) ops).Size
          = ((Queue_run (Queue_Init buf C S) ops).Tail + 1) *
            (Queue_run (Queue_Init buf C S) ops).Size := by ring
        _ ≤ (Queue_run (Queue_Init buf C S) ops).Elements *
            (Queue_run (Queue_Init buf C S) ops).Size := by
            exact Nat.mul_le_mul_right _ this

/-- C9 witness: well-definedness of both calls on a concrete reachable state
(capacity 1, one write performed). -/
theorem C9_capacity_precondition_witness :
    Queue_WriteData_defined (Queue_run (Queue_Init (fun _ => 0) 1 1) [QOp.write [5]]) ∧
    Queue_ReadData_defined (Queue_run (Queue_Init (fun _ => 0) 1 1) [QOp.write [5]]) :=
  C9_capacity_precondition.2 (fun _ => 0) 1 1 [QOp.write [5]] (by decide)

/-! ## Byte-copy lemmas -/

/-- A byte inside the copied range reads back from the source. -/
theorem memcpyToBuffer_in (buf : Nat → Nat) (off : Nat) (src : List Nat) (count i : Nat)
    (h1 : off ≤ i) (h2 : i < off + count) :
    memcpyToBuffer buf off src count i = src.getD (i - off) 0 := by
  unfold memcpyToBuffer
  rw [if_pos ⟨h1, h2⟩]

/-- A byte outside the copied range is untouched. -/
theorem memcpyToBuffer_out (buf : Nat → Nat) (off : Nat) (src : List Nat) (count i : Nat)
    (h : i < off ∨ off + count ≤ i) :
    memcpyToBuffer buf off src count i = buf i := by
  unfold memcpyToBuffer
  rw [if_neg (by omega)]

/-- Reading a range only depends on the bytes of that range. -/
theorem memcpyFromBuffer_ext (b1 b2 : Nat → Nat) (off count : Nat)
    (h : ∀ j, j < count → b1 (off + j) = b2 (off + j)) :
    memcpyFromBuffer b1 off count = memcpyFromBuffer b2 off count := by
  unfold memcpyFromBuffer
  apply List.map_congr_left
  intro a ha
  exact h a (List.mem_range.mp ha)

/-- Reading back the range just written yields the written bytes. -/
theorem memcpyFrom_memcpyTo_same (buf : Nat → Nat) (off count : Nat) (src : List Nat)
    (hlen : src.length = count) :
    memcpyFromBuffer (memcpyToBuffer buf off src count) off count = src := by
  apply List.ext_getElem
  · simp [memcpyFromBuffer, hlen]
  · intro i h1 h2
    have hi : i < count := by simpa [memcpyFromBuffer] using h1
    simp only [memcpyFromBuffer, List.getElem_map, List.getElem_range]
    rw [memcpyToBuffer_in buf off src count (off + i) (by omega) (by omega)]
    have h3 : off + i - off = i := by omega
    rw [h3, List_getD_lt src i 0 (by omega)]
    simp [List.get_eq_getElem]

/-- Writing slot `b` of a slotted buffer does not change the bytes of a
different slot `a` (slots are `count`-byte ranges at `slot * count`). -/
theorem memcpyFrom_memcpyTo_ne (buf : Nat → Nat) (a b count : Nat) (src : List Nat)
    (hab : a ≠ b) :
    memcpyFromBuffer (memcpyToBuffer buf (b * count) src count) (a * count) count
      = memcpyFromBuffer buf (a * count) count := by
  apply memcpyFromBuffer_ext
  intro j hj
  apply memcpyToBuffer_out
  rcases Nat.lt_or_ge a b with hc | hc
  · left
    have h1 : (a + 1) * count ≤ b * count := Nat.mul_le_mul_right _ (by omega)
    have h2 : (a + 1) * count = a * count + count := by ring
    omega
  · right
    have hba : b < a := by omega
    have h1 : (b + 1) * count ≤ a * count := Nat.mul_le_mul_right _ (by omega)
    have h2 : (b + 1) * count = b * count + count := by ring
    omega

/-! ## Modular index lemmas -/

/-- For `t < C` and `0 < k ≤ C`, advancing `t` by `k` modulo `C` returns to
`t` exactly when `k = C`. -/
theorem mod_add_self_eq_iff (C t k : Nat) (hC : 0 < C) (ht : t < C) (hk0 : 0 < k)
    (hkC : k ≤ C) : (t + k) % C = t ↔ k = C := by
  constructor
  · intro he
    rcases Nat.lt_or_ge (t + k) C with hlt | hge
    · rw [Nat.mod_eq_of_lt hlt] at he
      omega
    · rw [Nat.mod_eq_sub_mod hge, Nat.mod_eq_of_lt (by omega)] at he
      omega
  · intro he
    subst he
    rw [Nat.add_mod_right, Nat.mod_eq_of_lt ht]

/-- Two slots `i < l < C` positions apart from the same origin are distinct
modulo `C`. -/
theorem mod_add_lt_ne (C t i l : Nat) (hC : 0 < C) (hil : i < l) (hl : l < C) :
    (t + i) % C ≠ (t + l) % C := by
  intro he
  have hr : (t + i) % C < C := Nat.mod_lt _ hC
  have hsum : t + i + (l - i) = t + l := by omega
  have h2 : (t + l) % C = ((t + i) % C + (l - i)) % C := by
    rw [Nat.mod_add_mod, hsum]
  rw [h2] at he
  have h3 := (mod_add_self_eq_iff C ((t + i) % C) (l - i) hC hr (by omega) (by omega)).mp
    he.symm
  omega

/-! ## Queue representation lemmas -/

/-- `Queue_Init` represents the empty FIFO for any nonzero capacity. -/
theorem QRep_init (C S : Nat) (buf : Nat → Nat) (hC : 0 < C) :
    QRep C S (Queue_Init buf C S) [] := by
  refine ⟨rfl, rfl, hC, hC, hC, by simp, by simp [Queue_Init], ?_, by simp [Queue_Init], ?_, ?_⟩
  · constructor
    · intro hc
      exact Bool.noConfusion hc
    · intro hc
      simp at hc
      omega
  · intro i hi
    exact absurd hi (by simp)
  · intro x hx
    exact absurd hx (by simp)

/-- Writing one element to a non-full represented queue succeeds and appends
the element (truncated copy of exactly `S` bytes, with `d.length = S`). -/
theorem QRep_write (C S : Nat) (q : QueueType) (m : List (List Nat)) (d : List Nat)
    (h : QRep C S q m) (hlt : m.length < C) (hd : d.length = S) :
    (Queue_WriteData q d).2 = true ∧ QRep C S (Queue_WriteData q d).1 (m ++ [d]) := by
  have hC0 : 0 < C := h.cap_pos
  have hful : q.Full = false := by
    cases hq : q.Full
    · rfl
    · exact absurd (h.full_iff.mp hq) (Nat.ne_of_lt hlt)
  have hE : q.Elements = C := h.elems
  have hS : q.Size = S := h.size
  have hT : q.Tail < C := h.tail_lt
  have hHead : q.Head = (q.Tail + m.length) % C := h.head_eq
  have hlen2 : (m ++ [d]).length = m.length + 1 := by simp
  have e1 : (q.Head + 1) % C = (q.Tail + (m.length + 1)) % C := by
    rw [hHead, Nat.mod_add_mod, Nat.add_assoc]
  have hfull_cond : ((q.Head + 1) % q.Elements = q.Tail) ↔ (m.length + 1 = C) := by
    rw [hE, e1]
    exact mod_add_self_eq_iff C q.Tail (m.length + 1) hC0 hT (by omega) (by omega)
  have hentry2 : ∀ x ∈ m ++ [d], x.length = S := by
    intro x hx
    rcases List.mem_append.mp hx with hx | hx
    · exact h.entry_len x hx
    · rw [List.mem_singleton.mp hx]
      exact hd
  have hbufcontent : ∀ i (hi : i < (m ++ [d]).length),
      memcpyFromBuffer (memcpyToBuffer q.Buffer (q.Head * q.Size) d q.Size)
        (((q.Tail + i) % C) * S) S = (m ++ [d]).get ⟨i, hi⟩ := by
    intro i hi
    rw [hS]
    rcases Nat.lt_or_ge i m.length with him | him
    · have hne : (q.Tail + i) % C ≠ (q.Tail + m.length) % C :=
        mod_add_lt_ne C q.Tail i m.length hC0 him hlt
      calc memcpyFromBuffer (memcpyToBuffer q.Buffer (q.Head * S) d S)
              (((q.Tail + i) % C) * S) S
          = memcpyFromBuffer
              (memcpyToBuffer q.Buffer (((q.Tail + m.length) % C) * S) d S)
              (((q.Tail + i) % C) * S) S := by rw [← hHead]
        _ = memcpyFromBuffer q.Buffer (((q.Tail + i) % C) * S) S :=
            memcpyFrom_memcpyTo_ne q.Buffer _ _ S d hne
        _ = m.get ⟨i, him⟩ := h.content i him
        _ = (m ++ [d]).get ⟨i, hi⟩ := by
            rw [List.get_eq_getElem, List.get_eq_getElem]
            exact (List.getElem_append_left him).symm
    · have him2 : i = m.length := by
        rw [hlen2] at hi
        omega
      subst him2
      rw [hHead]
      rw [memcpyFrom_memcpyTo_same q.Buffer (((q.Tail + m.length) % C) * S) S d hd]
      rw [List.get_eq_getElem]
      exact (List.getElem_concat_length m d m.length rfl (by simp)).symm
  unfold Queue_WriteData
  rw [if_pos hful]
  dsimp only
  by_cases hht : (q.Head + 1) % q.Elements = q.Tail
  · rw [if_pos hht]
    refine ⟨rfl, hE, hS, hC0, ?_, hT, ?_, ?_, ?_, ?_, hbufcontent, hentry2⟩
    · rw [hE]
      exact Nat.mod_lt _ hC0
    · rw [hlen2]
      omega
    · rw [hE, hlen2]
      exact e1
    · rw [hlen2]
      exact Iff.intro (fun _ => hfull_cond.mp hht) (fun _ => rfl)
    · exact Iff.intro (fun hc => Bool.noConfusion hc)
        (fun hc => absurd hc (by simp [hlen2]))
  · rw [if_neg hht]
    refine ⟨rfl, hE, hS, hC0, ?_, hT, ?_, ?_, ?_, ?_, hbufcontent, hentry2⟩
    · rw [hE]
      exact Nat.mod_lt _ hC0
    · rw [hlen2]
      omega
    · rw [hE, hlen2]
      exact e1
    · rw [hful, hlen2]
      constructor
      · intro hc
        exact Bool.noConfusion hc
      · intro hc
        exact absurd (hfull_cond.mpr hc) hht
    · exact Iff.intro (fun hc => Bool.noConfusion hc)
        (fun hc => absurd hc (by simp [hlen2]))

/-- Reading from a non-empty represented queue returns the oldest element and
drops it from the abstract FIFO. -/
theorem QRep_read (C S : Nat) (q : QueueType) (d : List Nat) (m : List (List Nat))
    (h : QRep C S q (d :: m)) :
    (Queue_ReadData q).2 = some d ∧ QRep C S (Queue_ReadData q).1 m := by
  have hC0 : 0 < C := h.cap_pos
  have hE : q.Elements = C := h.elems
  have hS : q.Size = S := h.size
  have hT : q.Tail < C := h.tail_lt
  have hH : q.Head < C := h.head_lt
  have hemp : q.Empty = false := by
    cases hq : q.Empty
    · rfl
    · have := h.empty_iff.mp hq
      simp at this
  have hHead : q.Head = (q.Tail + (m.length + 1)) % C := by
    have h2 := h.head_eq
    simpa using h2
  have hlen : m.length + 1 ≤ C := by
    have h2 := h.len_le
    simpa using h2
  have hval : memcpyFromBuffer q.Buffer (q.Tail * q.Size) q.Size = d := by
    have hc := h.content 0 (by simp)
    rw [Nat.add_zero, Nat.mod_eq_of_lt hT] at hc
    rw [hS]
    exact hc
  have hentry2 : ∀ x ∈ m, x.length = S :=
    fun x hx => h.entry_len x (List.mem_cons_of_mem d hx)
  unfold Queue_ReadData
  rw [if_pos hemp]
  dsimp only
  by_cases hth : (q.Tail + 1) % q.Elements = q.Head
  · rw [if_pos hth]
    have hth2 : (q.Tail + 1) % C = q.Head := by
      rw [← hE]
      exact hth
    have hm0 : m.length = 0 := by
      by_contra hm
      apply mod_add_lt_ne C (q.Tail + 1) 0 m.length hC0 (by omega) (by omega)
      rw [Nat.add_zero]
      calc (q.Tail + 1) % C = q.Head := hth2
        _ = (q.Tail + (m.length + 1)) % C := hHead
        _ = (q.Tail + 1 + m.length) % C := by
            congr 1
            omega
    refine ⟨by rw [hval], hE, hS, hC0, hH, ?_, ?_, ?_, ?_, ?_, ?_, hentry2⟩
    · rw [hE]
      exact Nat.mod_lt _ hC0
    · omega
    · rw [hE, hm0, Nat.mod_add_mod, Nat.add_zero]
      exact hth2.symm
    · exact Iff.intro (fun hc => Bool.noConfusion hc) (fun hc => absurd hc (by omega))
    · exact Iff.intro (fun _ => hm0) (fun _ => rfl)
    · intro i hi
      exact absurd hi (by omega)
  · rw [if_neg hth]
    have hm0 : m.length ≠ 0 := by
      intro hm
      apply hth
      rw [hE, hHead, hm]
    refine ⟨by rw [hval], hE, hS, hC0, hH, ?_, ?_, ?_, ?_, ?_, ?_, hentry2⟩
    · rw [hE]
      exact Nat.mod_lt _ hC0
    · omega
    · rw [hE, Nat.mod_add_mod, hHead]
      congr 1
      omega
    · exact Iff.intro (fun hc => Bool.noConfusion hc) (fun hc => absurd hc (by omega))
    · exact Iff.intro (fun hc => absurd hc (by simp [hemp])) (fun hc => absurd hc hm0)
    · intro i hi
      have hc := h.content (i + 1) (by simpa using Nat.succ_lt_succ hi)
      rw [hE, Nat.mod_add_mod]
      have e2 : q.Tail + 1 + i = q.Tail + (i + 1) := by omega
      rw [e2]
      exact hc

/-- Writing a batch of elements into a represented queue with enough free
slots: every write returns `TRUE` and the batch is appended in order. -/
theorem Queue_writeAll_rep (C S : Nat) (ds : List (List Nat)) :
    ∀ (q : QueueType) (m : List (List Nat)), QRep C S q m →
      (∀ x ∈ ds, x.length = S) → m.length + ds.length ≤ C →
      (Queue_writeAll q ds).2 = true ∧ QRep C S (Queue_writeAll q ds).1 (m ++ ds) := by
  induction ds with
  | nil =>
    intro q m h _ _
    refine ⟨rfl, ?_⟩
    rw [List.append_nil]
    exact h
  | cons d ds ih =>
    intro q m h hx hlen
    have hd : d.length = S := hx d (List.mem_cons_self d ds)
    have hlt : m.length < C := by
      simp at hlen
      omega
    obtain ⟨hw, hrep⟩ := QRep_write C S q m d h hlt hd
    obtain ⟨hall, hrep2⟩ := ih (Queue_WriteData q d).1 (m ++ [d]) hrep
      (fun x hx2 => hx x (List.mem_cons_of_mem d hx2))
      (by simp at hlen ⊢; omega)
    constructor
    · show ((Queue_WriteData q d).2 && (Queue_writeAll (Queue_WriteData q d).1 ds).2) = true
      rw [hw, hall]
      rfl
    · show QRep C S (Queue_writeAll (Queue_WriteData q d).1 ds).1 (m ++ d :: ds)
      have e1 : m ++ d :: ds = (m ++ [d]) ++ ds := by simp
      rw [e1]
      exact hrep2

/-- Reading back the whole content of a represented queue yields exactly the
abstract FIFO, oldest first, and leaves the queue representing the empty
FIFO. -/
theorem Queue_readAll_rep (C S : Nat) (m : List (List Nat)) :
    ∀ q : QueueType, QRep C S q m →
      (Queue_readAll q m.length).2 = m.map some ∧
      QRep C S (Queue_readAll q m.length).1 [] := by
  induction m with
  | nil =>
    intro q h
    exact ⟨rfl, h⟩
  | cons d m ih =>
    intro q h
    obtain ⟨hv, hrep⟩ := QRep_read C S q d m h
    obtain ⟨hvs, hrep2⟩ := ih (Queue_ReadData q).1 hrep
    constructor
    · show ((Queue_ReadData q).2 :: (Queue_readAll (Queue_ReadData q).1 m.length).2)
        = (d :: m).map some
      rw [hv, hvs]
      rfl
    · exact hrep2

/-- C2: filling, overflow rejection and FIFO read-back.  For every capacity
`C ≥ 1`, element size `S`, initial buffer contents, and any `C` data
elements of `S` bytes each: starting from `Queue_Init`, all `C`
`Queue_WriteData` calls return `TRUE`; a `(C+1)`-th `Queue_WriteData` (with
any data) returns `FALSE` and leaves the entire queue state — buffer bytes,
`Head`, `Tail`, `Empty`, `Full` — unchanged; and `C` subsequent
`Queue_ReadData` calls return byte-exact copies of the `C` written elements
in write (FIFO) order. -/
theorem C2_queue_fill_fifo (C S : Nat) (buf : Nat → Nat) (ds : List (List Nat))
    (extra : List Nat) (hC : 1 ≤ C) (hlen : ds.length = C)
    (hsz : ∀ x ∈ ds, x.length = S) :
    (Queue_writeAll (Queue_Init buf C S) ds).2 = true ∧
    Queue_WriteData (Queue_writeAll (Queue_Init buf C S) ds).1 extra
      = ((Queue_writeAll (Queue_Init buf C S) ds).1, false) ∧
    (Queue_readAll (Queue_writeAll (Queue_Init buf C S) ds).1 C).2 = ds.map some := by
  have h0 : QRep C S (Queue_Init buf C S) [] := QRep_init C S buf (by omega)
  obtain ⟨hall, hrep⟩ := Queue_writeAll_rep C S ds (Queue_Init buf C S) [] h0 hsz
    (by simpa using hlen.le)
  rw [List.nil_append] at hrep
  have hfull : (Queue_writeAll (Queue_Init buf C S) ds).1.Full = true :=
    hrep.full_iff.mpr hlen
  refine ⟨hall, ?_, ?_⟩
  · unfold Queue_WriteData
    rw [if_neg (by simp [hfull])]
  · obtain ⟨hvs, _⟩ := Queue_readAll_rep C S ds (Queue_writeAll (Queue_Init buf C S) ds).1 hrep
    rw [hlen] at hvs
    exact hvs

/-- C2 witness: capacity 2, element size 1, elements `[5]` and `[7]`, extra
element `[9]`. -/
theorem C2_queue_fill_fifo_witness :
    (Queue_writeAll (Queue_Init (fun _ => 0) 2 1) [[5], [7]]).2 = true ∧
    Queue_WriteData (Queue_writeAll (Queue_Init (fun _ => 0) 2 1) [[5], [7]]).1 [9]
      = ((Queue_writeAll (Queue_Init (fun _ => 0) 2 1) [[5], [7]]).1, false) ∧
    (Queue_readAll (Queue_writeAll (Queue_Init (fun _ => 0) 2 1) [[5], [7]]).1 2).2
      = [[5], [7]].map some :=
  C2_queue_fill_fifo 2 1 (fun _ => 0) [[5], [7]] [9] (by decide) (by decide) (by decide)
